import Mathlib

/-!
Verification development for the Flask servers repository.

The embedding covers the two scripts holding the append-only event-log core:

- lab7_exercise.py : a Redis-backed transaction ledger per player
  (earn, spend, history, get_balance), each record a JSON object with a
  timestamp and a signed transaction_amount, pushed with LPUSH under the
  key player:<player_id>:transactions.
- redis_server.py : a Flask app with a POST endpoint (receive_data) that
  RPUSHes a JSON snapshot (timestamp added via isoformat) under the key
  PlayerData:<player_id>, and a GET endpoint
  (get_best_scores_for_each_player) that scans keys matching PlayerData:*,
  folds each list of snapshots to the maximum numeric coins field starting
  from the sentinel -1, and reports every player whose fold exceeds -1.

The Redis store is modelled as an association list from keys to lists of
stored entries; a stored entry is either a decodable transaction record, a
decodable snapshot dictionary, or a malformed blob on which json.loads
raises.
-/

namespace FlaskServers

/-- A JSON scalar value as it appears in request payloads and snapshots:
numeric or string. -/
inductive JsonVal where
  | num (n : Int)
  | str (s : String)
deriving DecidableEq

/-- A wall-clock instant, the argument of the two timestamp formatters. -/
structure DateTime where
  year : Nat
  month : Nat
  day : Nat
  hour : Nat
  minute : Nat
  second : Nat
  microsecond : Nat
deriving DecidableEq

/-- Two-digit zero padding, as produced by strftime directives and by
isoformat for month, day, hour, minute and second. -/
def pad2 (n : Nat) : String :=
  if n < 10 then "0" ++ toString n else toString n

/-- Four-digit zero padding for the year field. -/
def pad4 (n : Nat) : String :=
  if n < 10 then "000" ++ toString n
  else if n < 100 then "00" ++ toString n
  else if n < 1000 then "0" ++ toString n
  else toString n

/-- Six-digit zero padding for the microsecond field of isoformat. -/
def pad6 (n : Nat) : String :=
  if n < 10 then "00000" ++ toString n
  else if n < 100 then "0000" ++ toString n
  else if n < 1000 then "000" ++ toString n
  else if n < 10000 then "00" ++ toString n
  else if n < 100000 then "0" ++ toString n
  else toString n

/-- The timestamp format used by earn and spend in lab7_exercise.py:
strftime with pattern day/month/year - hour:minute:second. -/
def strftimeDMY (t : DateTime) : String :=
  pad2 t.day ++ "/" ++ pad2 t.month ++ "/" ++ pad4 t.year ++ " - " ++
  pad2 t.hour ++ ":" ++ pad2 t.minute ++ ":" ++ pad2 t.second

/-- The timestamp format used by receive_data in redis_server.py:
datetime.isoformat, with a fractional part only when microsecond is
nonzero. -/
def isoformat (t : DateTime) : String :=
  pad4 t.year ++ "-" ++ pad2 t.month ++ "-" ++ pad2 t.day ++ "T" ++
  pad2 t.hour ++ ":" ++ pad2 t.minute ++ ":" ++ pad2 t.second ++
  (if t.microsecond = 0 then "" else "." ++ pad6 t.microsecond)

/-- A decoded ledger transaction record, as serialized by earn and spend:
a timestamp string and a signed amount. -/
structure TransRec where
  timestamp : String
  transaction_amount : Int
deriving DecidableEq

/-- One element of a Redis list as the readers see it: a valid serialized
transaction record, a valid serialized snapshot dictionary, or a blob on
which json.loads raises JSONDecodeError. -/
inductive StoredEntry where
  | validTrans (r : TransRec)
  | validSnap (fields : List (String × JsonVal))
  | malformed
deriving DecidableEq

/-- Association-list get: the value bound to a key, if any. Models both
Python dict.get and lookup of a Redis key. -/
def alGet {α : Type} : List (String × α) → String → Option α
  | [], _ => none
  | (k', v) :: rest, k => if k' = k then some v else alGet rest k

/-- Association-list set: rebind a key in place if present, else append.
Models Python dict assignment and writing back a Redis list. -/
def alSet {α : Type} : List (String × α) → String → α → List (String × α)
  | [], k, v => [(k, v)]
  | (k', v') :: rest, k, v =>
    if k' = k then (k, v) :: rest else (k', v') :: alSet rest k v

/-- The Redis store: each key holds a list of stored entries. -/
abbrev RStore := List (String × List StoredEntry)

/-- LRANGE key 0 -1: the full list at a key, empty if the key is absent. -/
def lookupList (s : RStore) (k : String) : List StoredEntry :=
  (alGet s k).getD []

/-- LPUSH: prepend one entry to the list at a key. -/
def lpush (s : RStore) (k : String) (e : StoredEntry) : RStore :=
  alSet s k (e :: lookupList s k)

/-- RPUSH: append one entry to the list at a key. -/
def rpush (s : RStore) (k : String) (e : StoredEntry) : RStore :=
  alSet s k (lookupList s k ++ [e])

/-- Glob match for a pattern of the shape p* : the key starts with p. -/
def matchesPat (pat k : String) : Bool :=
  pat.data.isPrefixOf k.data

/-- KEYS pat* : all keys of the store matching the pattern. -/
def keysMatching (s : RStore) (pat : String) : List String :=
  (s.map Prod.fst).filter (fun k => matchesPat pat k)

/-- The key formatted by earn in lab7_exercise.py. -/
def earnKey (pid : String) : String := "player:" ++ pid ++ ":transactions"

/-- The key formatted by spend in lab7_exercise.py. -/
def spendKey (pid : String) : String := "player:" ++ pid ++ ":transactions"

/-- The key formatted by history in lab7_exercise.py. -/
def historyKey (pid : String) : String := "player:" ++ pid ++ ":transactions"

/-- The key formatted by get_balance in lab7_exercise.py. -/
def balanceKey (pid : String) : String := "player:" ++ pid ++ ":transactions"

/-- The key formatted by receive_data in redis_server.py. -/
def playerDataKey (pid : String) : String := "PlayerData:" ++ pid

/-- The pattern scanned by get_best_scores_for_each_player. -/
def playerDataPat : String := "PlayerData:"

/-- earn: LPUSH a JSON record with the strftime timestamp and the amount
as a positive delta. -/
def earn (now : DateTime) (pid : String) (amount : Int) (s : RStore) : RStore :=
  lpush s (earnKey pid) (.validTrans ⟨strftimeDMY now, amount⟩)

/-- spend: LPUSH a JSON record with the strftime timestamp and the negated
amount, with no sign or range check. -/
def spend (now : DateTime) (pid : String) (amount : Int) (s : RStore) : RStore :=
  lpush s (spendKey pid) (.validTrans ⟨strftimeDMY now, -amount⟩)

/-- json.loads applied to one stored blob: succeeds on any well-formed
entry, raises (none) on a malformed one. -/
def jsonLoad : StoredEntry → Option StoredEntry
  | .malformed => none
  | e => some e

/-- The decoding loop of history: json.loads each element in order; a
failure propagates as an uncaught exception, aborting the whole call. -/
def decodeAll : List StoredEntry → Option (List StoredEntry)
  | [] => some []
  | e :: rest =>
    match jsonLoad e with
    | some d => (decodeAll rest).map (fun l => d :: l)
    | none => none

/-- history: LRANGE the transactions key and decode every element. -/
def history (s : RStore) (pid : String) : Option (List StoredEntry) :=
  decodeAll (lookupList s (historyKey pid))

/-- json.loads(i) followed by indexing transaction_amount, as get_balance
does per element: fails on a malformed blob (JSONDecodeError) and on a
record with no transaction_amount field (KeyError). -/
def loadAmount : StoredEntry → Option Int
  | .validTrans r => some r.transaction_amount
  | _ => none

/-- The delta-collecting loop of get_balance: extract every amount in
order; any failure propagates and aborts the whole call. -/
def decodeDeltas : List StoredEntry → Option (List Int)
  | [] => some []
  | e :: rest =>
    match loadAmount e with
    | some d => (decodeDeltas rest).map (fun ds => d :: ds)
    | none => none

/-- The balance of one stored sequence: the sum of all decoded deltas, or
failure if any element fails to decode. -/
def balanceOfSeq (l : List StoredEntry) : Option Int :=
  (decodeDeltas l).map List.sum

/-- get_balance: LRANGE the transactions key, decode every amount, sum. -/
def get_balance (s : RStore) (pid : String) : Option Int :=
  balanceOfSeq (lookupList s (balanceKey pid))

/-- The per-snapshot extraction of the report loop: json.loads the blob
(skipping on decode failure), dict.get the coins field, and keep it only
when present and numeric. -/
def snapCoins : StoredEntry → Option Int
  | .validSnap fields =>
    match alGet fields "coins" with
    | some (.num n) => some n
    | _ => none
  | _ => none

/-- One iteration of the report's inner loop: replace the accumulator when
a valid coins value strictly exceeds it, keep it otherwise (also on a
skipped snapshot). -/
def bestStep (acc : Int) (e : StoredEntry) : Int :=
  match snapCoins e with
  | some c => if c > acc then c else acc
  | none => acc

/-- The report's inner fold: max_coins_for_player starts at the sentinel
-1 and is raised by every valid coins value exceeding it. -/
def foldBest (l : List StoredEntry) : Int :=
  l.foldl bestStep (-1)

/-- The per-player result of the report: the fold's value when it exceeds
the sentinel -1, otherwise no contribution (the player is omitted). -/
def bestFor (s : RStore) (k : String) : Option Int :=
  if foldBest (lookupList s k) > -1 then some (foldBest (lookupList s k)) else none

/-- Python str.split on a single-character separator, over char lists:
always yields at least one (possibly empty) segment. -/
def splitOnChar (c : Char) : List Char → List (List Char)
  | [] => [[]]
  | x :: xs =>
    let rest := splitOnChar c xs
    if x = c then [] :: rest
    else
      match rest with
      | [] => [[x]]
      | r :: rs => (x :: r) :: rs

/-- The player id extracted from a scanned key: split(":")[-1]. -/
def playerIdOfKey (k : String) : String :=
  String.mk ((splitOnChar ':' k.data).getLastD [])

/-- The outcome of the GET report endpoint: a 500 error when the Redis
client is absent, otherwise a 200 response carrying the score mapping. -/
inductive ReportResult where
  | storeError
  | ok (scores : List (String × Int))
deriving DecidableEq

/-- The report's outer loop: for each scanned key, skip it when the
extracted player id is empty, otherwise record the per-player best score
(when one exists) in the insertion-ordered mapping. -/
def reportFold (s : RStore) (ks : List String) : List (String × Int) :=
  ks.foldl (fun acc k =>
    if playerIdOfKey k = "" then acc
    else
      match bestFor s k with
      | some m => alSet acc (playerIdOfKey k) m
      | none => acc) []

/-- GET handler get_best_scores_for_each_player: fail when the Redis
client is absent, otherwise scan all PlayerData keys and build the best
score mapping (empty when no key matches). -/
def get_best_scores_for_each_player (conn : Option RStore) : ReportResult :=
  match conn with
  | none => .storeError
  | some s => .ok (reportFold s (keysMatching s playerDataPat))

/-- The outcome of the POST endpoint: 500 when the Redis client is
absent, 400 when player_id is missing or falsy, 200 with the stored key
otherwise. -/
inductive PostResult where
  | connError
  | badRequest
  | okStored (key : String)
deriving DecidableEq

/-- Python truthiness of a JSON scalar, as tested by the check on
player_id in receive_data. -/
def truthy : JsonVal → Bool
  | .num n => n != 0
  | .str s => s != ""

/-- String interpolation of a JSON scalar into the Redis key. -/
def jsonValToStr : JsonVal → String
  | .num n => toString n
  | .str s => s

/-- POST handler receive_data: require a connection and a truthy
player_id, stamp the payload with the isoformat wall-clock time, and
RPUSH the serialized result under PlayerData:<player_id>. No field of the
payload other than player_id is inspected or validated. -/
def receive_data (conn : Option RStore) (body : List (String × JsonVal))
    (now : DateTime) : PostResult × Option RStore :=
  match conn with
  | none => (.connError, none)
  | some s =>
    match alGet body "player_id" with
    | none => (.badRequest, some s)
    | some v =>
      if truthy v then
        (.okStored (playerDataKey (jsonValToStr v)),
         some (rpush s (playerDataKey (jsonValToStr v))
           (.validSnap (alSet body "timestamp" (.str (isoformat now))))))
      else (.badRequest, some s)

/-- One ledger call: earn or spend at some wall-clock instant. -/
inductive LedgerOp where
  | earnOp (now : DateTime) (amount : Int)
  | spendOp (now : DateTime) (amount : Int)
deriving DecidableEq

/-- Apply one ledger call for a fixed player to the store. -/
def applyLedgerOp (pid : String) (s : RStore) : LedgerOp → RStore
  | .earnOp now a => earn now pid a s
  | .spendOp now a => spend now pid a s

/-- Apply an interleaved sequence of ledger calls, oldest first. -/
def runOps (pid : String) (ops : List LedgerOp) (s : RStore) : RStore :=
  ops.foldl (applyLedgerOp pid) s

/-- The record an op serializes and pushes. -/
def opRec : LedgerOp → TransRec
  | .earnOp now a => ⟨strftimeDMY now, a⟩
  | .spendOp now a => ⟨strftimeDMY now, -a⟩

/-- The stored entry an op pushes. -/
def opEntry (op : LedgerOp) : StoredEntry :=
  .validTrans (opRec op)

/-- The signed delta an op contributes to the balance. -/
def opDelta : LedgerOp → Int
  | .earnOp _ a => a
  | .spendOp _ a => -a

/-- The amounts of the earn calls of a sequence, in order. -/
def earnAmounts (ops : List LedgerOp) : List Int :=
  ops.filterMap (fun op =>
    match op with
    | .earnOp _ a => some a
    | _ => none)

/-- The amounts of the spend calls of a sequence, in order. -/
def spendAmounts (ops : List LedgerOp) : List Int :=
  ops.filterMap (fun op =>
    match op with
    | .spendOp _ a => some a
    | _ => none)

theorem alGet_alSet_self {α : Type} (s : List (String × α)) (k : String) (v : α) :
    alGet (alSet s k v) k = some v := by
  induction s with
  | nil => simp [alGet, alSet]
  | cons p rest ih =>
    by_cases h : p.1 = k
    · simp [alSet, h, alGet]
    · simp [alSet, h, alGet, ih]

theorem lookupList_alSet_self (s : RStore) (k : String) (l : List StoredEntry) :
    lookupList (alSet s k l) k = l := by
  simp [lookupList, alGet_alSet_self]

theorem lookupList_lpush (s : RStore) (k : String) (e : StoredEntry) :
    lookupList (lpush s k e) k = e :: lookupList s k := by
  simp [lpush, lookupList_alSet_self]

theorem lookupList_rpush (s : RStore) (k : String) (e : StoredEntry) :
    lookupList (rpush s k e) k = lookupList s k ++ [e] := by
  simp [rpush, lookupList_alSet_self]

theorem mem_map_fst_alSet {α : Type} (s : List (String × α)) (k : String) (v : α) :
    k ∈ (alSet s k v).map Prod.fst := by
  induction s with
  | nil => simp [alSet]
  | cons p rest ih =>
    by_cases h : p.1 = k
    · simp [alSet, h]
    · simp only [alSet, h, if_false, List.map_cons, List.mem_cons]
      exact Or.inr ih

theorem spendKey_eq_earnKey (pid : String) : spendKey pid = earnKey pid := rfl

theorem balanceKey_eq_earnKey (pid : String) : balanceKey pid = earnKey pid := rfl

theorem historyKey_eq_earnKey (pid : String) : historyKey pid = earnKey pid := rfl

theorem lookupList_runOps (pid : String) (ops : List LedgerOp) (s : RStore) :
    lookupList (runOps pid ops s) (earnKey pid) =
      (ops.map opEntry).reverse ++ lookupList s (earnKey pid) := by
  induction ops generalizing s with
  | nil => simp [runOps]
  | cons op ops ih =>
    have h1 : runOps pid (op :: ops) s = runOps pid ops (applyLedgerOp pid s op) := rfl
    rw [h1, ih]
    cases op with
    | earnOp now a =>
      rw [show applyLedgerOp pid s (.earnOp now a) = earn now pid a s from rfl]
      simp [earn, lookupList_lpush, opEntry, opRec]
    | spendOp now a =>
      rw [show applyLedgerOp pid s (.spendOp now a) = spend now pid a s from rfl]
      rw [show spend now pid a s =
        lpush s (earnKey pid) (.validTrans ⟨strftimeDMY now, -a⟩) from rfl]
      simp [lookupList_lpush, opEntry, opRec]

theorem decodeDeltas_opEntries (ops : List LedgerOp) :
    decodeDeltas (ops.map opEntry) = some (ops.map opDelta) := by
  induction ops with
  | nil => rfl
  | cons op ops ih =>
    cases op <;> simp [decodeDeltas, opEntry, opRec, opDelta, loadAmount, ih]

theorem sum_opDelta (ops : List LedgerOp) :
    (ops.map opDelta).sum = (earnAmounts ops).sum - (spendAmounts ops).sum := by
  induction ops with
  | nil => simp [earnAmounts, spendAmounts]
  | cons op ops ih =>
    cases op <;>
      simp [earnAmounts, spendAmounts, List.filterMap_cons, opDelta, ih] at * <;>
      omega

/-- C1: for every entity key and every interleaving of earn and spend
calls applied to an initially empty store, get_balance returns exactly
the sum of the earn amounts minus the sum of the spend amounts (no
floor-at-zero clamp, so the result is negative when spends exceed
earns); with no calls at all it returns 0. -/
theorem balance_is_earn_sum_sub_spend_sum (pid : String) (ops : List LedgerOp) :
    get_balance (runOps pid ops []) pid =
      some ((earnAmounts ops).sum - (spendAmounts ops).sum) := by
  have h := lookupList_runOps pid ops []
  have h0 : lookupList [] (earnKey pid) = [] := rfl
  rw [h0, List.append_nil] at h
  unfold get_balance balanceOfSeq
  rw [balanceKey_eq_earnKey, h, ← List.map_reverse, decodeDeltas_opEntries]
  simp [List.sum_reverse, sum_opDelta]

theorem decodeAll_opEntries (l : List LedgerOp) :
    decodeAll (l.map opEntry) = some (l.map opEntry) := by
  induction l with
  | nil => rfl
  | cons op ops ih =>
    cases op <;> simp [decodeAll, opEntry, opRec, jsonLoad, ih]

theorem opRec_amount (op : LedgerOp) :
    (opRec op).transaction_amount = opDelta op := by
  cases op <;> rfl

theorem length_earn_add_spend (ops : List LedgerOp) :
    (earnAmounts ops).length + (spendAmounts ops).length = ops.length := by
  induction ops with
  | nil => rfl
  | cons op ops ih =>
    cases op <;> simp [earnAmounts, spendAmounts, List.filterMap_cons] at * <;> omega

theorem perm_opDelta (ops : List LedgerOp) :
    (ops.map opDelta).Perm
      (earnAmounts ops ++ (spendAmounts ops).map (fun a => -a)) := by
  induction ops with
  | nil => simp [earnAmounts, spendAmounts]
  | cons op ops ih =>
    cases op with
    | earnOp now a =>
      simp only [List.map_cons, earnAmounts, spendAmounts, List.filterMap_cons,
        opDelta, List.cons_append]
      exact ih.cons a
    | spendOp now a =>
      simp only [List.map_cons, earnAmounts, spendAmounts, List.filterMap_cons,
        opDelta, List.map_cons]
      exact (ih.cons (-a)).trans List.perm_middle.symm

/-- C8: after any interleaving of earn and spend calls on an initially
empty store, history returns exactly N+M decoded transaction records, and
the multiset of their signed amounts is exactly the earn amounts together
with the negated spend amounts, regardless of the order in which the
records are stored. -/
theorem history_returns_all_signed_amounts (pid : String) (ops : List LedgerOp) :
    ∃ l : List TransRec,
      history (runOps pid ops []) pid = some (l.map StoredEntry.validTrans)
      ∧ l.length = (earnAmounts ops).length + (spendAmounts ops).length
      ∧ (↑(l.map TransRec.transaction_amount) : Multiset Int)
          = ↑(earnAmounts ops) + ↑((spendAmounts ops).map (fun a => -a)) := by
  refine ⟨ops.reverse.map opRec, ?_, ?_, ?_⟩
  · have h := lookupList_runOps pid ops []
    have h0 : lookupList [] (earnKey pid) = [] := rfl
    rw [h0, List.append_nil] at h
    unfold history
    rw [historyKey_eq_earnKey, h, ← List.map_reverse, decodeAll_opEntries]
    simp [opEntry, List.map_map]
  · simp [length_earn_add_spend]
  · rw [List.map_map]
    have hmap : (ops.reverse.map (TransRec.transaction_amount ∘ opRec))
        = ops.reverse.map opDelta := by
      apply List.map_congr_left
      intro op _
      exact opRec_amount op
    rw [hmap, Multiset.coe_add]
    have hperm : (ops.reverse.map opDelta).Perm
        (earnAmounts ops ++ (spendAmounts ops).map (fun a => -a)) :=
      ((List.reverse_perm ops).map opDelta).trans (perm_opDelta ops)
    exact Multiset.coe_eq_coe.mpr hperm

/-- C10: spend stores a record whose delta is exactly the negation of the
requested amount, with no sign, range or positivity check; hence a spend
with a negative amount strictly increases the balance, and symmetrically
an earn with a negative amount decreases it. -/
theorem spend_negates_amount_unchecked (now : DateTime) (pid : String) (a : Int)
    (s : RStore) (ds : List Int)
    (h : decodeDeltas (lookupList s (balanceKey pid)) = some ds) :
    lookupList (spend now pid a s) (balanceKey pid)
        = StoredEntry.validTrans ⟨strftimeDMY now, -a⟩ :: lookupList s (balanceKey pid)
    ∧ get_balance (spend now pid a s) pid = some (ds.sum - a)
    ∧ get_balance (earn now pid a s) pid = some (ds.sum + a)
    ∧ (a < 0 → ds.sum < ds.sum - a) := by
  have hs : lookupList (spend now pid a s) (balanceKey pid)
      = StoredEntry.validTrans ⟨strftimeDMY now, -a⟩ :: lookupList s (balanceKey pid) := by
    rw [balanceKey_eq_earnKey, ← spendKey_eq_earnKey]
    exact lookupList_lpush s (spendKey pid) _
  have he : lookupList (earn now pid a s) (balanceKey pid)
      = StoredEntry.validTrans ⟨strftimeDMY now, a⟩ :: lookupList s (balanceKey pid) := by
    rw [balanceKey_eq_earnKey]
    exact lookupList_lpush s (earnKey pid) _
  refine ⟨hs, ?_, ?_, ?_⟩
  · unfold get_balance balanceOfSeq
    rw [hs]
    simp [decodeDeltas, loadAmount, h]
    omega
  · unfold get_balance balanceOfSeq
    rw [he]
    simp [decodeDeltas, loadAmount, h]
    omega
  · intro ha
    omega

/-- Witness for C10 at a concrete input: on the empty store, a spend of
-5 yields balance 5. -/
theorem spend_negates_amount_unchecked_witness :
    get_balance (spend ⟨2026, 10, 12, 1, 2, 3, 0⟩ "1001" (-5) []) "1001"
      = some (List.sum ([] : List Int) - (-5)) :=
  (spend_negates_amount_unchecked ⟨2026, 10, 12, 1, 2, 3, 0⟩ "1001" (-5) [] [] rfl).2.1

theorem bestStep_eq_max (acc : Int) (e : StoredEntry) (c : Int)
    (h : snapCoins e = some c) : bestStep acc e = max acc c := by
  unfold bestStep
  rw [h]
  rcases lt_or_le acc c with hc | hc
  · simp [if_pos hc, max_eq_right hc.le]
  · have : ¬ c > acc := not_lt.mpr hc
    simp [if_neg this, max_eq_left hc]

theorem foldl_bestStep_eq_filterMap (l : List StoredEntry) (acc : Int) :
    l.foldl bestStep acc = (l.filterMap snapCoins).foldl max acc := by
  induction l generalizing acc with
  | nil => rfl
  | cons e l ih =>
    cases he : snapCoins e with
    | none =>
      have hstep : bestStep acc e = acc := by simp [bestStep, he]
      simp [List.foldl_cons, List.filterMap_cons, he, hstep, ih]
    | some c =>
      have hstep : bestStep acc e = max acc c := bestStep_eq_max acc e c he
      simp [List.foldl_cons, List.filterMap_cons, he, hstep, ih]

theorem foldBest_eq_filterMap (l : List StoredEntry) :
    foldBest l = (l.filterMap snapCoins).foldl max (-1) :=
  foldl_bestStep_eq_filterMap l (-1)

theorem le_foldl_max (l : List Int) (b : Int) : b ≤ l.foldl max b := by
  induction l generalizing b with
  | nil => exact le_refl b
  | cons x l ih => exact le_trans (le_max_left b x) (ih (max b x))

theorem mem_le_foldl_max (l : List Int) (b x : Int) (hx : x ∈ l) :
    x ≤ l.foldl max b := by
  induction l generalizing b with
  | nil => cases hx
  | cons y l ih =>
    rcases List.mem_cons.mp hx with h | h
    · subst h
      exact le_trans (le_max_right b x) (le_foldl_max l (max b x))
    · exact ih (max b y) h

theorem foldl_max_le (l : List Int) (b c : Int) (hb : b ≤ c)
    (h : ∀ x ∈ l, x ≤ c) : l.foldl max b ≤ c := by
  induction l generalizing b with
  | nil => exact hb
  | cons y l ih =>
    refine ih (max b y) (max_le hb (h y (List.mem_cons_self y l))) ?_
    intro x hx
    exact h x (List.mem_cons_of_mem y hx)

theorem foldl_max_eq_or_mem (l : List Int) (b : Int) :
    l.foldl max b = b ∨ l.foldl max b ∈ l := by
  induction l generalizing b with
  | nil => exact Or.inl rfl
  | cons y l ih =>
    rw [List.foldl_cons]
    rcases ih (max b y) with h | h
    · rcases max_choice b y with h2 | h2
      · exact Or.inl (h.trans h2)
      · exact Or.inr (List.mem_cons.mpr (Or.inl (h.trans h2)))
    · exact Or.inr (List.mem_cons_of_mem y h)

/-- The store used to refute C2: one player whose only snapshot has the
valid numeric coins value -5. -/
def exC2store : RStore :=
  [("PlayerData:7", [StoredEntry.validSnap [("coins", JsonVal.num (-5))]])]

/-- C2 counterexample: player 7 has one record with the valid numeric
coins value -5, so by the claim the report should map the bare id 7 to
-5; the code instead omits the player, because the reduction identity -1
is not below this valid score. -/
theorem report_drops_valid_negative_scores :
    get_best_scores_for_each_player (some exC2store) = ReportResult.ok []
    ∧ snapCoins (StoredEntry.validSnap [("coins", JsonVal.num (-5))]) = some (-5)
    ∧ ReportResult.ok ([] : List (String × Int)) ≠ ReportResult.ok [("7", -5)] := by
  refine ⟨rfl, rfl, ?_⟩
  decide

/-- C2 amended: the report's per-player aggregation yields a score m
exactly when m is the maximum of the valid numeric coins values of the
player's records and m exceeds the sentinel -1; records with a missing or
non-numeric coins field are excluded, and a player whose valid values are
all at most -1 (in particular one with no valid value) is omitted. -/
theorem best_score_reduction_characterized (s : RStore) (k : String) (m : Int) :
    bestFor s k = some m ↔
      (m ∈ (lookupList s k).filterMap snapCoins
       ∧ (∀ v ∈ (lookupList s k).filterMap snapCoins, v ≤ m)
       ∧ -1 < m) := by
  unfold bestFor
  rw [foldBest_eq_filterMap]
  constructor
  · intro h
    by_cases hgt : ((lookupList s k).filterMap snapCoins).foldl max (-1) > -1
    · rw [if_pos hgt] at h
      have hm : ((lookupList s k).filterMap snapCoins).foldl max (-1) = m :=
        Option.some_injective _ h
      subst hm
      refine ⟨?_, ?_, hgt⟩
      · rcases foldl_max_eq_or_mem ((lookupList s k).filterMap snapCoins) (-1) with h2 | h2
        · omega
        · exact h2
      · intro v hv
        exact mem_le_foldl_max _ (-1) v hv
    · rw [if_neg hgt] at h
      cases h
  · rintro ⟨hmem, hub, hgt⟩
    have hle : ((lookupList s k).filterMap snapCoins).foldl max (-1) ≤ m :=
      foldl_max_le _ (-1) m (by omega) hub
    have hge : m ≤ ((lookupList s k).filterMap snapCoins).foldl max (-1) :=
      mem_le_foldl_max _ (-1) m hmem
    have heq : ((lookupList s k).filterMap snapCoins).foldl max (-1) = m :=
      le_antisymm hle hge
    rw [heq, if_pos hgt]

theorem decodeDeltas_eq_ite (l : List StoredEntry) :
    decodeDeltas l =
      if l.all (fun e => (loadAmount e).isSome)
      then some (l.filterMap loadAmount) else none := by
  induction l with
  | nil => rfl
  | cons e l ih =>
    cases he : loadAmount e with
    | none => simp [decodeDeltas, he, List.all_cons]
    | some d =>
      by_cases hall : l.all (fun e => (loadAmount e).isSome)
      · simp [decodeDeltas, he, List.all_cons, List.filterMap_cons, hall, ih]
      · simp [decodeDeltas, he, List.all_cons, List.filterMap_cons, hall, ih]

theorem all_eq_of_perm (l1 l2 : List StoredEntry) (p : StoredEntry → Bool)
    (hp : l1.Perm l2) : l1.all p = l2.all p := by
  cases h1 : l1.all p with
  | true =>
    have h2 : ∀ x ∈ l2, p x = true := by
      intro x hx
      exact List.all_eq_true.mp h1 x (hp.mem_iff.mpr hx)
    exact (List.all_eq_true.mpr h2).symm
  | false =>
    cases h2 : l2.all p with
    | false => rfl
    | true =>
      have h3 : ∀ x ∈ l1, p x = true := by
        intro x hx
        exact List.all_eq_true.mp h2 x (hp.mem_iff.mp hx)
      rw [List.all_eq_true.mpr h3] at h1
      cases h1

theorem balanceOfSeq_perm (l1 l2 : List StoredEntry) (hp : l1.Perm l2) :
    balanceOfSeq l1 = balanceOfSeq l2 := by
  unfold balanceOfSeq
  rw [decodeDeltas_eq_ite, decodeDeltas_eq_ite,
    all_eq_of_perm l1 l2 (fun e => (loadAmount e).isSome) hp]
  by_cases hall : l2.all (fun e => (loadAmount e).isSome)
  · rw [if_pos hall, if_pos hall]
    simp [(hp.filterMap loadAmount).sum_eq]
  · rw [if_neg hall, if_neg hall]

theorem foldBest_perm (l1 l2 : List StoredEntry) (hp : l1.Perm l2) :
    foldBest l1 = foldBest l2 := by
  rw [foldBest_eq_filterMap, foldBest_eq_filterMap]
  exact (hp.filterMap snapCoins).foldl_eq (-1)

/-- C5: for every stored sequence of decodable records, both aggregates
are invariant under any permutation of the sequence: the balance sum and
the best-score fold give the same result whatever the physical storage
order (head-push or tail-push). -/
theorem aggregates_invariant_under_permutation (l1 l2 : List StoredEntry)
    (hp : l1.Perm l2) (_hdec : ∀ e ∈ l1, e ≠ StoredEntry.malformed) :
    balanceOfSeq l1 = balanceOfSeq l2 ∧ foldBest l1 = foldBest l2 :=
  ⟨balanceOfSeq_perm l1 l2 hp, foldBest_perm l1 l2 hp⟩

/-- One decodable two-element sequence and its transposition, used to
witness C5 at a concrete input. -/
def exL1 : List StoredEntry :=
  [StoredEntry.validTrans ⟨"t1", 3⟩, StoredEntry.validSnap [("coins", JsonVal.num 7)]]

/-- The transposition of exL1. -/
def exL2 : List StoredEntry :=
  [StoredEntry.validSnap [("coins", JsonVal.num 7)], StoredEntry.validTrans ⟨"t1", 3⟩]

/-- Witness for C5 at a concrete input: a two-element decodable sequence
and its transposition give equal aggregates. -/
theorem aggregates_invariant_under_permutation_witness :
    balanceOfSeq exL1 = balanceOfSeq exL2 ∧ foldBest exL1 = foldBest exL2 :=
  aggregates_invariant_under_permutation exL1 exL2 (by decide) (by decide)

theorem decodeDeltas_of_malformed_mem (l : List StoredEntry)
    (h : StoredEntry.malformed ∈ l) : decodeDeltas l = none := by
  induction l with
  | nil => cases h
  | cons e l ih =>
    rcases List.mem_cons.mp h with he | he
    · rw [← he]
      rfl
    · cases h2 : loadAmount e with
      | none => simp [decodeDeltas, h2]
      | some d => simp [decodeDeltas, h2, ih he]

theorem bestStep_malformed (acc : Int) : bestStep acc StoredEntry.malformed = acc := rfl

/-- C3 amended: a malformed record does not leave the aggregates as the
claim states. The balance read aborts: whenever a malformed blob is among
the stored transactions, get_balance propagates the decode failure and
returns no sum at all. The best-score fold does skip the malformed record
and computes the same value as over the sequence with it removed, but the
response carries no skip count, so the caller is not notified. -/
theorem malformed_record_aborts_balance_but_not_best (s : RStore) (pid : String)
    (h : StoredEntry.malformed ∈ lookupList s (balanceKey pid)) :
    get_balance s pid = none
    ∧ ∀ l1 l2 : List StoredEntry,
        foldBest (l1 ++ StoredEntry.malformed :: l2) = foldBest (l1 ++ l2) := by
  constructor
  · unfold get_balance balanceOfSeq
    rw [decodeDeltas_of_malformed_mem _ h]
    rfl
  · intro l1 l2
    unfold foldBest
    rw [List.foldl_append, List.foldl_append, List.foldl_cons, bestStep_malformed]

/-- The store used to refute C3: one valid transaction of amount 5
followed by a malformed blob. -/
def exC3store : RStore :=
  [("player:9:transactions",
    [StoredEntry.validTrans ⟨"t", 5⟩, StoredEntry.malformed])]

/-- The same store with the malformed blob removed. -/
def exC3clean : RStore :=
  [("player:9:transactions", [StoredEntry.validTrans ⟨"t", 5⟩])]

/-- C3 counterexample: with one malformed record among otherwise valid
records, get_balance aborts and returns no result, instead of returning
the sum over the sequence with the record removed (which is 5) together
with a skip count. -/
theorem balance_aborts_on_malformed_record :
    get_balance exC3store "9" = none ∧ get_balance exC3clean "9" = some 5 := by
  constructor <;> rfl

/-- Witness for C3 amended at a concrete input: the store above makes
get_balance abort, and the best-score fold ignores a malformed entry. -/
theorem malformed_record_aborts_balance_but_not_best_witness :
    get_balance exC3store "9" = none
    ∧ foldBest [StoredEntry.malformed] = foldBest [] := by
  have h := malformed_record_aborts_balance_but_not_best exC3store "9" (by decide)
  refine ⟨h.1, ?_⟩
  have h2 := h.2 [] []
  simpa using h2

/-- C4: every write path and every read path address the same storage
key. The lab7 writer keys (earn, spend) equal the reader keys (history,
get_balance) for every player id, and the key the POST endpoint stores
under matches the PlayerData pattern the report endpoint scans, so that a
freshly stored key is enumerated by the scan and its data is read back. -/
theorem writers_and_readers_share_keys (pid : String) (s : RStore) (e : StoredEntry) :
    earnKey pid = historyKey pid
    ∧ spendKey pid = historyKey pid
    ∧ balanceKey pid = historyKey pid
    ∧ matchesPat playerDataPat (playerDataKey pid) = true
    ∧ playerDataKey pid ∈ keysMatching (rpush s (playerDataKey pid) e) playerDataPat := by
  have hmatch : matchesPat playerDataPat (playerDataKey pid) = true := by
    have hdata : (playerDataKey pid).data = playerDataPat.data ++ pid.data := by
      simp [playerDataKey, playerDataPat, String.data_append]
    simp [matchesPat, hdata, List.isPrefixOf_iff_prefix]
  refine ⟨rfl, rfl, rfl, hmatch, ?_⟩
  unfold keysMatching rpush
  refine List.mem_filter.mpr ⟨?_, hmatch⟩
  exact mem_map_fst_alSet s (playerDataKey pid) (lookupList s (playerDataKey pid) ++ [e])

/-- C6: when the Redis client is absent the report request fails with an
error response, while a reachable store whose scan finds zero PlayerData
keys yields a success response carrying an empty mapping; the two
outcomes are distinguishable constructors. -/
theorem empty_report_distinct_from_store_failure :
    get_best_scores_for_each_player none = ReportResult.storeError
    ∧ ∀ s : RStore, keysMatching s playerDataPat = [] →
        get_best_scores_for_each_player (some s) = ReportResult.ok [] := by
  refine ⟨rfl, ?_⟩
  intro s h
  simp [get_best_scores_for_each_player, h, reportFold]

/-- Witness for C6 at a concrete input: the empty store has no PlayerData
keys and reports an empty mapping, while the absent client errors. -/
theorem empty_report_distinct_from_store_failure_witness :
    get_best_scores_for_each_player none = ReportResult.storeError
    ∧ get_best_scores_for_each_player (some []) = ReportResult.ok [] :=
  ⟨empty_report_distinct_from_store_failure.1,
   empty_report_distinct_from_store_failure.2 [] rfl⟩

/-- The wall-clock instant used in the concrete POST examples. -/
def exNow : DateTime := ⟨2026, 10, 12, 1, 2, 3, 0⟩

/-- A POST body with a truthy player_id and a non-numeric coins field. -/
def exBody : List (String × JsonVal) :=
  [("player_id", JsonVal.str "1001"), ("coins", JsonVal.str "lots")]

/-- C7 counterexample: a write request whose coins payload is the
non-numeric string lots is not rejected: receive_data answers success and
appends the snapshot, so the stored sequence changes from empty to one
record. No ValidationError path exists in the code. -/
theorem nonnumeric_payload_is_stored_not_rejected :
    receive_data (some []) exBody exNow =
      (PostResult.okStored "PlayerData:1001",
       some [("PlayerData:1001",
         [StoredEntry.validSnap
           [("player_id", JsonVal.str "1001"), ("coins", JsonVal.str "lots"),
            ("timestamp", JsonVal.str "2026-10-12T01:02:03")]])])
    ∧ alGet exBody "coins" = some (JsonVal.str "lots") := by
  constructor <;> rfl

/-- C7 amended: the snapshot write endpoint performs no numeric
validation of the payload. The only check before the storage call is
that player_id is present and truthy; any such body, whatever the types
of its other fields, is stamped with the wall-clock timestamp and
appended under PlayerData:<player_id> with a success response. -/
theorem receive_data_stores_any_payload_with_truthy_id (s : RStore)
    (body : List (String × JsonVal)) (now : DateTime) (v : JsonVal)
    (h1 : alGet body "player_id" = some v) (h2 : truthy v = true) :
    receive_data (some s) body now =
      (PostResult.okStored (playerDataKey (jsonValToStr v)),
       some (rpush s (playerDataKey (jsonValToStr v))
         (StoredEntry.validSnap (alSet body "timestamp" (JsonVal.str (isoformat now)))))) := by
  unfold receive_data
  rw [h1]
  simp [h2]

/-- Witness for C7 amended at a concrete input: the example body with a
truthy player_id and a non-numeric coins field is stored verbatim. -/
theorem receive_data_stores_any_payload_with_truthy_id_witness :
    receive_data (some []) exBody exNow =
      (PostResult.okStored (playerDataKey (jsonValToStr (JsonVal.str "1001"))),
       some (rpush [] (playerDataKey (jsonValToStr (JsonVal.str "1001")))
         (StoredEntry.validSnap (alSet exBody "timestamp" (JsonVal.str (isoformat exNow)))))) :=
  receive_data_stores_any_payload_with_truthy_id [] exBody exNow
    (JsonVal.str "1001") rfl rfl

/-- C9 counterexample: the snapshot stored by the POST endpoint at the
concrete instant 12/10/2026 01:02:03 carries the ISO 8601 timestamp
2026-10-12T01:02:03, which differs from the single claimed
day/month/year - hour:minute:second rendering of the same wall clock. -/
theorem snapshot_timestamp_not_dmy_format :
    (receive_data (some []) exBody exNow).2
      = some [("PlayerData:1001",
          [StoredEntry.validSnap
            [("player_id", JsonVal.str "1001"), ("coins", JsonVal.str "lots"),
             ("timestamp", JsonVal.str "2026-10-12T01:02:03")]])]
    ∧ strftimeDMY exNow = "12/10/2026 - 01:02:03"
    ∧ ("2026-10-12T01:02:03" : String) ≠ "12/10/2026 - 01:02:03" := by
  refine ⟨rfl, rfl, ?_⟩
  decide

theorem alGet_alSet_ne {α : Type} (s : List (String × α)) (k k' : String) (v : α)
    (h : k' ≠ k) : alGet (alSet s k v) k' = alGet s k' := by
  have h2 : k ≠ k' := fun hc => h hc.symm
  induction s with
  | nil => simp [alGet, alSet, h2]
  | cons p rest ih =>
    by_cases hp : p.1 = k
    · have hp' : p.1 ≠ k' := by
        rw [hp]
        exact h2
      simp [alSet, hp, alGet, hp', h2]
    · simp [alSet, hp, alGet, ih]

/-- C9 amended: each write path stamps its record from the current wall
clock, but the two paths use different fixed formats. The ledger writes
(earn, spend) store the day/month/year - hour:minute:second strftime
rendering, while the snapshot endpoint stores the ISO 8601 isoformat
rendering in the timestamp field of the appended record. -/
theorem write_paths_use_two_timestamp_formats (now : DateTime) (pid : String)
    (a : Int) (s : RStore) (body : List (String × JsonVal)) (v : JsonVal)
    (h1 : alGet body "player_id" = some v) (h2 : truthy v = true) :
    lookupList (earn now pid a s) (historyKey pid)
        = StoredEntry.validTrans ⟨strftimeDMY now, a⟩ :: lookupList s (historyKey pid)
    ∧ lookupList (spend now pid a s) (historyKey pid)
        = StoredEntry.validTrans ⟨strftimeDMY now, -a⟩ :: lookupList s (historyKey pid)
    ∧ (receive_data (some s) body now).2
        = some (rpush s (playerDataKey (jsonValToStr v))
            (StoredEntry.validSnap (alSet body "timestamp" (JsonVal.str (isoformat now)))))
    ∧ alGet (alSet body "timestamp" (JsonVal.str (isoformat now))) "timestamp"
        = some (JsonVal.str (isoformat now)) := by
  refine ⟨?_, ?_, ?_, ?_⟩
  · rw [historyKey_eq_earnKey]
    exact lookupList_lpush s (earnKey pid) _
  · rw [historyKey_eq_earnKey, ← spendKey_eq_earnKey]
    exact lookupList_lpush s (spendKey pid) _
  · rw [receive_data_stores_any_payload_with_truthy_id s body now v h1 h2]
  · exact alGet_alSet_self body "timestamp" (JsonVal.str (isoformat now))

/-- Witness for C9 amended at a concrete input. -/
theorem write_paths_use_two_timestamp_formats_witness :
    lookupList (earn exNow "1001" 5 []) (historyKey "1001")
        = StoredEntry.validTrans ⟨strftimeDMY exNow, 5⟩ :: lookupList [] (historyKey "1001")
    ∧ lookupList (spend exNow "1001" 5 []) (historyKey "1001")
        = StoredEntry.validTrans ⟨strftimeDMY exNow, -5⟩ :: lookupList [] (historyKey "1001")
    ∧ (receive_data (some []) exBody exNow).2
        = some (rpush [] (playerDataKey (jsonValToStr (JsonVal.str "1001")))
            (StoredEntry.validSnap (alSet exBody "timestamp" (JsonVal.str (isoformat exNow)))))
    ∧ alGet (alSet exBody "timestamp" (JsonVal.str (isoformat exNow))) "timestamp"
        = some (JsonVal.str (isoformat exNow)) :=
  write_paths_use_two_timestamp_formats exNow "1001" 5 [] exBody
    (JsonVal.str "1001") rfl rfl
